import Mathlib

/-!
Verification of the CLOCK-Pro+ cache (`go-clockpro`).

The Go source (`clock.go`, `error.go`, `internal/ring/ring.go`) is embedded
shallowly:

* A Go `*page` (a `ring.Ring` node) is an arena id (`Nat`): `Cache.pages`
  is the allocation arena, indexed by id; ids are never reused, matching
  Go heap allocation.  Pointer equality becomes id equality.
* The single circular doubly-linked ring is represented by its cyclic order:
  `Cache.ring : List Nat` lists the linked ids in `Next`-order (the successor
  of the last element is the first).  The only ring mutations `clock.go`
  performs are `Prev().Unlink(1)` (remove one node, which in Go leaves the
  removed node as a self-linked singleton ring) and `lru.Link(node)`
  (insert one node after `lru`); they are embedded as list erasure and
  insertion.  `Next`/`Prev` of an id that is not linked return the id
  itself, matching the self-linked singleton a removed node becomes.
* Go `nil` page pointers are `Option Nat` = `none`.  Where the Go code would
  dereference a nil pointer (a panic), the model dereferences `Option.getD 0`;
  such states are outside the reachable invariants proved below.
* Go `int` is `Int`; Go `/` (truncation toward zero) is `Int.tdiv`.
  Go map `c.index` is an association list (insertion order; Go iteration
  order is unspecified, and no claim below depends on the order).
* Loops (`for` in Go) are embedded with an explicit fuel parameter; the
  public entry points pass a fuel that dominates every loop bound of the
  source, and all invariant theorems hold for every fuel.
-/

namespace Clockpro

/-- Flattened page record: `ring.Metadata` plus `Ring.Value` of the Go source
make one record (`page[Key, Value]` with `Key = Value = Int`). -/
structure Page where
  Name : Int
  Value : Int
  LIR : Bool
  Resident : Bool
  Demoted : Bool
  Referenced : Bool
  Stacked : Bool
deriving Repr, DecidableEq, Inhabited

/-- Successor of `i` in the cyclic order `first :: rest`; `i` itself when `i`
is not linked (a removed node is self-linked in the Go ring). -/
def ringNextFrom (first : Nat) : List Nat → Nat → Nat
  | [], i => i
  | [a], i => if a = i then first else i
  | a :: b :: rest, i => if a = i then b else ringNextFrom first (b :: rest) i

/-- Embeds `Ring.Next` of the Go source, on the cyclic-order representation. -/
def ringNext (r : List Nat) (i : Nat) : Nat :=
  match r with
  | [] => i
  | a :: _ => ringNextFrom a r i

/-- Embeds `Ring.Prev` of the Go source: successor in the reversed cyclic order. -/
def ringPrev (r : List Nat) (i : Nat) : Nat :=
  ringNext r.reverse i

/-- Embeds `t.Link(x)` for a freshly unlinked single node `x`: insert `x` directly
after `t` in the cyclic order (no change when `t` is not linked, in which
case the Go node would join `t`'s detached ring, not this one). -/
def insertAfter : List Nat → Nat → Nat → List Nat
  | [], _, _ => []
  | a :: rest, t, x => if a = t then a :: x :: rest else a :: insertAfter rest t x

/-- Go map lookup `c.index[key]`. -/
def idxLookup : List (Int × Nat) → Int → Option Nat
  | [], _ => none
  | (k, v) :: rest, key => if k = key then some v else idxLookup rest key

/-- Go map assignment `c.index[key] = id`. -/
def idxInsert : List (Int × Nat) → Int → Nat → List (Int × Nat)
  | [], key, id => [(key, id)]
  | (k, v) :: rest, key, id =>
    if k = key then (key, id) :: rest else (k, v) :: idxInsert rest key id

/-- Go `delete(c.index, key)`. -/
def idxErase : List (Int × Nat) → Int → List (Int × Nat)
  | [], _ => []
  | (k, v) :: rest, key => if k = key then rest else (k, v) :: idxErase rest key

/-- The `Cache[Key, Value]` struct of `clock.go` (with `Key = Value = Int`),
plus the allocation arena `pages` realizing the Go heap. -/
structure Cache where
  index : List (Int × Nat)
  pages : List Page
  ring : List Nat
  hot : Option Nat
  cold : Option Nat
  test : Option Nat
  lru : Option Nat
  capacity : Int
  coldTarget : Int
  hotTarget : Int
  coldCount : Int
  hotCount : Int
  testCount : Int
  demotions : Int
deriving Repr, DecidableEq

/-- Dereference a page pointer (arena read). -/
def getPage (s : Cache) (i : Nat) : Page :=
  s.pages.getD i default

/-- Write through a page pointer (arena update). -/
def modifyPage (s : Cache) (i : Nat) (f : Page → Page) : Cache :=
  { s with pages := s.pages.set i (f (getPage s i)) }

/-- Embeds `MinimumCapacity` of `clock.go`. -/
def MinimumCapacity : Int := 2

/-- The error value built by `minCapacityError` in `error.go`:
`fmt.Errorf("%w: ...", ErrInvalidCapacity, ...)` wraps the sentinel and
prepends its message. -/
structure WrappedError where
  wrapped : String
  message : String
deriving Repr, DecidableEq

/-- Embeds `ErrInvalidCapacity` of `error.go` (a `constError`; its `Error()` string). -/
def ErrInvalidCapacity : String := "invalid capacity"

/-- Embeds `minCapacityError` of `error.go`. -/
def minCapacityError (capacity : Int) : WrappedError :=
  { wrapped := ErrInvalidCapacity
    message := ErrInvalidCapacity ++ ": must be >=" ++ toString MinimumCapacity
      ++ " but " ++ toString capacity ++ " was requested" }

/-- The initial cold target computed by `New`:
`min(int(max(float64(capacity)*0.01, 1)), capacity/2)`.
The source computes the inner expression in 64-bit floating point; it is
modelled here in exact real arithmetic.  Truncating `max(capacity*0.01, 1)`
toward zero (the value is at least 1, hence positive, so truncation is the
floor) gives `max(capacity/100, 1)` in truncated integer division. -/
def initialColdTarget (capacity : Int) : Int :=
  min (max (capacity.tdiv 100) 1) (capacity.tdiv 2)

/-- The cache record `New` returns for a valid capacity. -/
def mkCache (capacity : Int) : Cache :=
  let coldTarget := initialColdTarget capacity
  { index := []
    pages := []
    ring := []
    hot := none
    cold := none
    test := none
    lru := none
    capacity := capacity
    coldTarget := coldTarget
    hotTarget := capacity - coldTarget
    coldCount := 0
    hotCount := 0
    testCount := 0
    demotions := 0 }

/-- Embeds `New` of `clock.go`. -/
def New (capacity : Int) : Except WrappedError Cache :=
  if capacity < MinimumCapacity then .error (minCapacityError capacity)
  else .ok (mkCache capacity)

/-- Embeds `adjustColdTarget` of `clock.go`. -/
def Cache.adjustColdTarget (s : Cache) (delta : Int) : Cache :=
  let size := s.capacity
  let diff := max (s.coldTarget + delta) 1
  let coldTarget := min diff (size.tdiv 2)
  { s with coldTarget := coldTarget, hotTarget := size - coldTarget }

/-- Embeds `increaseColdTarget` of `clock.go` (the Go division panics when
`testCount = 0`; `Int.tdiv` then yields 0, a state outside the proved
invariants). -/
def Cache.increaseColdTarget (s : Cache) : Cache :=
  s.adjustColdTarget (max (s.demotions.tdiv s.testCount) 1)

/-- Embeds `decreaseColdTarget` of `clock.go`. -/
def Cache.decreaseColdTarget (s : Cache) : Cache :=
  s.adjustColdTarget (-(max (s.testCount.tdiv s.demotions) 1))

/-- The loop of `sweepTest`: advance while the hand is on an LIR or
resident page. -/
def sweepTestLoop (s : Cache) (fuel : Nat) (hand : Nat) : Nat :=
  match fuel with
  | 0 => hand
  | fuel + 1 =>
    let p := getPage s hand
    if p.LIR || p.Resident then sweepTestLoop s fuel (ringNext s.ring hand)
    else hand

/-- Embeds `sweepTest` of `clock.go`. -/
def Cache.sweepTest (s : Cache) (fuel : Nat) : Cache :=
  if s.testCount = 0 then { s with test := none }
  else { s with test := some (sweepTestLoop s fuel (s.test.getD 0)) }

/-- Embeds `removeTest` of `clock.go`. -/
def Cache.removeTest (s : Cache) (fuel : Nat) (testId : Nat) : Cache :=
  let s := if s.test = some testId
    then { s with test := some (ringNext s.ring testId) } else s
  let s := { s with index := idxErase s.index (getPage s testId).Name }
  let s := { s with ring := s.ring.erase testId }
  let s := { s with testCount := s.testCount - 1 }
  s.sweepTest fuel

/-- Embeds `handleHotLIR` of `clock.go`. -/
def Cache.handleHotLIR (s : Cache) (pageId : Nat) : Cache :=
  let s := modifyPage s pageId (fun p => { p with Referenced := false })
  { s with lru := some pageId }

/-- Embeds `handleHotHIR` of `clock.go`. -/
def Cache.handleHotHIR (s : Cache) (fuel : Nat) (pageId next : Nat) : Cache :=
  let page := getPage s pageId
  if page.Resident then
    if page.Referenced then
      let s := modifyPage s pageId (fun p => { p with Referenced := false })
      let s := if (getPage s pageId).Demoted then
          let s := s.decreaseColdTarget
          let s := modifyPage s pageId (fun p => { p with Demoted := false })
          { s with demotions := s.demotions - 1 }
        else s
      let s := { s with lru := some pageId }
      if s.cold = some pageId then { s with cold := some next } else s
    else
      modifyPage s pageId (fun p => { p with Stacked := false })
  else
    s.removeTest fuel pageId

/-- The loop of `sweepHot`; yields the final state and hand position.
`next` is read before the handler mutates the ring, as in the source. -/
def sweepHotLoop (fuel : Nat) (s : Cache) (pageId : Nat) : Cache × Nat :=
  match fuel with
  | 0 => (s, pageId)
  | fuel + 1 =>
    let page := getPage s pageId
    if !page.LIR || page.Referenced then
      let next := ringNext s.ring pageId
      let s := if page.LIR then s.handleHotLIR pageId
        else s.handleHotHIR fuel pageId next
      sweepHotLoop fuel s next
    else (s, pageId)

/-- Embeds `sweepHot` of `clock.go`. -/
def Cache.sweepHot (s : Cache) (fuel : Nat) : Cache :=
  if s.hotCount = 0 then s
  else
    let r := sweepHotLoop fuel s (s.hot.getD 0)
    { r.1 with hot := some r.2 }

/-- Embeds `moveToLRU` of `clock.go`: unlink the page and relink it after `lru`. -/
def Cache.moveToLRU (s : Cache) (pageId : Nat) : Cache :=
  if s.lru = some pageId then s
  else
    let s := { s with ring := insertAfter (s.ring.erase pageId) (s.lru.getD 0) pageId }
    { s with lru := some pageId }

/-- Embeds `demoteHot` of `clock.go`. -/
def Cache.demoteHot (s : Cache) (fuel : Nat) : Cache :=
  let pageId := s.hot.getD 0
  let s := { s with hot := some (ringNext s.ring pageId) }
  let s := modifyPage s pageId
    (fun p => { p with LIR := false, Stacked := false, Demoted := true })
  let s := { s with hotCount := s.hotCount - 1 }
  let s := { s with coldCount := s.coldCount + 1 }
  let s := { s with demotions := s.demotions + 1 }
  let s := s.moveToLRU pageId
  s.sweepHot fuel

/-- The `for hotCount > hotTarget` loop of `promoteCold`. -/
def promoteColdLoop (fuel : Nat) (s : Cache) : Cache :=
  match fuel with
  | 0 => s
  | fuel + 1 =>
    if s.hotCount > s.hotTarget then promoteColdLoop fuel (s.demoteHot fuel)
    else s

/-- Embeds `promoteCold` of `clock.go`. -/
def Cache.promoteCold (s : Cache) (fuel : Nat) (coldToHot : Nat) : Cache :=
  let s := modifyPage s coldToHot (fun p => { p with LIR := true })
  let s := { s with hotCount := s.hotCount + 1, coldCount := s.coldCount - 1 }
  let s := s.moveToLRU coldToHot
  promoteColdLoop fuel s

/-- Embeds `handleReferencedCold` of `clock.go`. -/
def Cache.handleReferencedCold (s : Cache) (fuel : Nat) (pageId : Nat) : Cache :=
  let s := modifyPage s pageId (fun p => { p with Referenced := false })
  let s := if (getPage s pageId).Demoted then
      let s := s.decreaseColdTarget
      let s := modifyPage s pageId (fun p => { p with Demoted := false })
      { s with demotions := s.demotions - 1 }
    else s
  if (getPage s pageId).Stacked then s.promoteCold fuel pageId
  else
    let s := modifyPage s pageId (fun p => { p with Stacked := true })
    s.moveToLRU pageId

/-- The loop of `sweepCold`; `hand.Next()` is read before the handler runs,
as in the source. -/
def sweepColdLoop (fuel : Nat) (s : Cache) (hand : Nat) : Cache × Nat :=
  match fuel with
  | 0 => (s, hand)
  | fuel + 1 =>
    let p := getPage s hand
    if p.LIR || !p.Resident || p.Referenced then
      let next := ringNext s.ring hand
      let s := if p.LIR || !p.Referenced then s
        else s.handleReferencedCold fuel hand
      sweepColdLoop fuel s next
    else (s, hand)

/-- Embeds `sweepCold` of `clock.go`. -/
def Cache.sweepCold (s : Cache) (fuel : Nat) : Cache :=
  if s.coldCount = 0 then s
  else
    let r := sweepColdLoop fuel s (s.cold.getD 0)
    { r.1 with cold := some r.2 }

/-- Embeds `evictCold` of `clock.go`. -/
def Cache.evictCold (s : Cache) (fuel : Nat) : Cache :=
  let pageId := s.cold.getD 0
  let s := { s with cold := some (ringNext s.ring pageId) }
  let s := modifyPage s pageId (fun p => { p with Resident := false, Value := 0 })
  let s := { s with coldCount := s.coldCount - 1, testCount := s.testCount + 1 }
  let s := if (getPage s pageId).Demoted then
      let s := modifyPage s pageId (fun p => { p with Demoted := false })
      { s with demotions := s.demotions - 1 }
    else s
  let s := if s.test = none then { s with test := some pageId } else s
  if !(getPage s pageId).Stacked then
    let s := if s.lru = some pageId
      then { s with lru := some (ringPrev s.ring pageId) } else s
    s.removeTest fuel pageId
  else s

/-- Embeds `addToClock` of `clock.go`. -/
def Cache.addToClock (s : Cache) (pageId : Nat) : Cache :=
  let s :=
    if s.lru = none then { s with ring := [pageId], lru := some pageId, hot := some pageId }
    else
      let s := { s with ring := insertAfter s.ring (s.lru.getD 0) pageId }
      { s with lru := some pageId }
  { s with index := idxInsert s.index (getPage s pageId).Name pageId }

/-- The `pruneTest` loop of `clock.go`. -/
def pruneTestLoop (fuel : Nat) (s : Cache) : Cache :=
  match fuel with
  | 0 => s
  | fuel + 1 =>
    if s.coldCount + s.hotCount + s.testCount > s.capacity * 2 then
      pruneTestLoop fuel (s.removeTest fuel (s.test.getD 0))
    else s

/-- Embeds `pruneTest` of `clock.go`. -/
def Cache.pruneTest (s : Cache) (fuel : Nat) : Cache :=
  pruneTestLoop fuel s

/-- Embeds `addNew` of `clock.go`; the fresh heap allocation takes the next arena id. -/
def Cache.addNew (s : Cache) (fuel : Nat) (key value : Int) : Cache :=
  let lowIRR : Bool := s.coldCount == 0 && decide (s.hotCount < s.hotTarget)
  let pageId := s.pages.length
  let newPage : Page :=
    { Name := key
      Value := value
      LIR := lowIRR
      Resident := true
      Demoted := false
      Referenced := false
      Stacked := true }
  let s := { s with pages := s.pages ++ [newPage] }
  let s := s.addToClock pageId
  let s := if lowIRR then { s with hotCount := s.hotCount + 1 }
    else
      let s := if s.cold = none then { s with cold := some pageId } else s
      { s with coldCount := s.coldCount + 1 }
  let s := s.sweepCold fuel
  s.pruneTest fuel

/-- Embeds `promoteTest` of `clock.go`. -/
def Cache.promoteTest (s : Cache) (fuel : Nat) (testToHot : Nat) (value : Int) : Cache :=
  let s := s.increaseColdTarget
  let s := s.evictCold fuel
  let s := modifyPage s testToHot (fun p => { p with Value := value, Resident := true })
  let s := { s with testCount := s.testCount - 1, coldCount := s.coldCount + 1 }
  let s := if s.test = some testToHot then s.sweepTest fuel else s
  let s := s.promoteCold fuel testToHot
  s.sweepCold fuel

/-- Embeds `atCapacity` of `clock.go`. -/
def Cache.atCapacity (s : Cache) : Bool :=
  s.coldCount + s.hotCount == s.capacity

/-- Embeds `handleMiss` of `clock.go`. -/
def Cache.handleMiss (s : Cache) (fuel : Nat) (key value : Int) (hadMetadata : Bool) : Cache :=
  let s := s.sweepHot fuel
  let s := s.sweepCold fuel
  match hadMetadata, idxLookup s.index key with
  | true, some testId => s.promoteTest fuel testId value
  | true, none =>
    let s := if s.atCapacity then s.evictCold fuel else s
    s.addNew fuel key value
  | false, _ =>
    let s := if s.atCapacity then s.evictCold fuel else s
    s.addNew fuel key value

/-- Fuel passed by the public entry points: dominates every loop bound of
the source (each hand traverses at most the ring, of size at most the
arena). -/
def Cache.defaultFuel (s : Cache) : Nat :=
  (s.pages.length + 2) * (s.pages.length + 2)

/-- Embeds `Get` of `clock.go`; the returned `Option Int` is Go's `(Value, bool)`. -/
def Cache.Get (s : Cache) (key : Int) : Cache × Option Int :=
  match idxLookup s.index key with
  | some id =>
    if (getPage s id).Resident then
      (modifyPage s id (fun p => { p with Referenced := true }),
        some (getPage s id).Value)
    else (s, none)
  | none => (s, none)

/-- Embeds `Set` of `clock.go`. -/
def Cache.Set (s : Cache) (key value : Int) : Cache :=
  match idxLookup s.index key with
  | some id =>
    if (getPage s id).Resident then
      modifyPage s id (fun p => { p with Referenced := true, Value := value })
    else s.handleMiss s.defaultFuel key value true
  | none => s.handleMiss s.defaultFuel key value false

/-- Embeds `Load` of `clock.go`.  `fetch : Option Int` models the callback:
`some v` is a successful fetch of `v`, `none` a fetch error.  Note the
source passes the constant `hadMetadata = false` to `handleMiss`. -/
def Cache.Load (s : Cache) (key : Int) (fetch : Option Int) : Cache × Option Int :=
  match s.Get key with
  | (s, some v) => (s, some v)
  | (s, none) =>
    match fetch with
    | none => (s, none)
    | some value => (s.handleMiss s.defaultFuel key value false, some value)

/-- Embeds `Len` of `clock.go`. -/
def Cache.Len (s : Cache) : Int :=
  s.hotCount + s.coldCount

/-- The body of the `Keys` iterator: walk the index, yield keys of resident
pages, decrement the countdown after each yield and stop when it reaches 0.
The returned list is the full, uninterrupted iteration. -/
def keysAux (s : Cache) : List (Int × Nat) → Int → List Int
  | [], _ => []
  | (key, id) :: rest, residents =>
    if (getPage s id).Resident then
      if residents - 1 = 0 then [key]
      else key :: keysAux s rest (residents - 1)
    else keysAux s rest residents

/-- Embeds `Keys` of `clock.go` (the sequence of keys a full iteration yields). -/
def Cache.Keys (s : Cache) : List Int :=
  keysAux s s.index s.Len

/-- A public mutating operation (`Len` and `Keys` do not mutate the cache
and are the identity on states). -/
inductive Op where
  | get (key : Int)
  | set (key value : Int)
  | load (key : Int) (fetch : Option Int)
  | len
  | keys
deriving Repr, DecidableEq

/-- The state transition of one public operation. -/
def applyOp (s : Cache) : Op → Cache
  | .get key => (s.Get key).1
  | .set key value => s.Set key value
  | .load key fetch => (s.Load key fetch).1
  | .len => s
  | .keys => s

/-- Run a sequence of public operations. -/
def run (s : Cache) (ops : List Op) : Cache :=
  ops.foldl applyOp s

/-- The keys of resident indexed pages (in index order). -/
def residentKeys (s : Cache) : List Int :=
  (s.index.filter (fun kv => (getPage s kv.2).Resident)).map (fun kv => kv.1)

/-- The number of linked ring pages whose `Demoted` flag is set. -/
def countDemoted (s : Cache) : Int :=
  ((s.ring.filter (fun i => (getPage s i).Demoted)).length : Int)


/-! ## Derived definitions used by the theorems -/

/-- Abbreviation: the resident-page count `hotCount + coldCount`. -/
def hcSum (s : Cache) : Int := s.hotCount + s.coldCount

/-- Abbreviation: the tracked-metadata count
`hotCount + coldCount + testCount`. -/
def metaSum (s : Cache) : Int := s.hotCount + s.coldCount + s.testCount

/-- Invariant I3 as a predicate (capacity at least 2, cold target in
`[1, capacity/2]`, hot target complementary). -/
def TargetInv (s : Cache) : Prop :=
  2 ≤ s.capacity ∧ 1 ≤ s.coldTarget ∧ s.coldTarget ≤ s.capacity.tdiv 2
  ∧ s.hotTarget = s.capacity - s.coldTarget

/-! ## Concrete scenario states -/


/-- State of the capacity-2 ghost scenario after Set(1,1); Set(2,2); Set(3,3).
Key 1 was inserted hot (lowIRR), key 2 cold; Set(3,3) evicted key 2 to a
ghost (page id 1). -/
def ghostState : Cache :=
  run (mkCache 2) [.set 1 1, .set 2 2, .set 3 3]

/-- State of `ghostState` after the two hand sweeps that open `handleMiss`. -/
def ghostStateSwept : Cache :=
  (ghostState.sweepHot ghostState.defaultFuel).sweepCold ghostState.defaultFuel

/-- State after a `Load` miss (successful fetch) on the ghost key 2. -/
def loadOnGhost : Cache :=
  (ghostState.Load 2 (some 99)).1

/-- State after a `Set` miss on the ghost key 2. -/
def setOnGhost : Cache :=
  ghostState.Set 2 99

/-- A reachable corrupted state of a capacity-2 cache: after the `Load` on
ghost key 2 leaves stale ghost metadata in the ring, the later operations
remove that stale ghost via `removeTest`, which deletes the index entry of
the live resident page that shares the key. -/
def corruptedState : Cache :=
  run (mkCache 2)
    [.set 1 1, .set 2 2, .set 3 3, .load 2 (some 99), .set 2 2, .set 3 3]

/-- State of the capacity-3 eviction-order scenario:
Set(1,1); Set(2,2); Set(3,3); Get(1); Get(2); Set(4,4). -/
def evictionOrderState : Cache :=
  run (mkCache 3) [.set 1 1, .set 2 2, .set 3 3, .get 1, .get 2, .set 4 4]

/-- A capacity-4 operation sequence that exercises the demotion machinery at
operation boundaries: the ghost hit `Set(4,44)` raises `coldTarget` to 2 via
`increaseColdTarget`, so the subsequent `promoteCold` demotes two hot pages
(keys 1 and 2) that survive to the end of the operation; `Get(3); Get(1)`
then reference an LIR page and a demoted page, and `Set(7,7)` clears both
demotions again through the referenced-demoted sweep branches and a cold
eviction. -/
def demoTrace : List Op :=
  [.set 1 1, .set 2 2, .set 3 3, .set 4 4, .set 5 5, .set 4 44,
   .get 3, .get 1, .set 7 7, .set 6 6]

/-- The value of `loadOnGhost`, written out (checkpoint for evaluation). -/
def loadOnGhostValue : Cache :=
  { index := [(1, 0), (2, 3), (3, 2)]
    pages :=
      [{ Name := 1, Value := 1, LIR := true, Resident := true,
         Demoted := false, Referenced := false, Stacked := true },
       { Name := 2, Value := 0, LIR := false, Resident := false,
         Demoted := false, Referenced := false, Stacked := true },
       { Name := 3, Value := 0, LIR := false, Resident := false,
         Demoted := false, Referenced := false, Stacked := true },
       { Name := 2, Value := 99, LIR := false, Resident := true,
         Demoted := false, Referenced := false, Stacked := true }]
    ring := [0, 1, 2, 3]
    hot := some 0
    cold := some 3
    test := some 1
    lru := some 3
    capacity := 2
    coldTarget := 1
    hotTarget := 1
    coldCount := 1
    hotCount := 1
    testCount := 2
    demotions := 0 }

/-- The value of `corruptedState`, written out (checkpoint for evaluation). -/
def corruptedStateValue : Cache :=
  { index := [(3, 4)]
    pages :=
      [{ Name := 1, Value := 0, LIR := false, Resident := false,
         Demoted := false, Referenced := false, Stacked := false },
       { Name := 2, Value := 0, LIR := false, Resident := false,
         Demoted := false, Referenced := false, Stacked := true },
       { Name := 3, Value := 0, LIR := false, Resident := false,
         Demoted := false, Referenced := false, Stacked := true },
       { Name := 2, Value := 2, LIR := true, Resident := true,
         Demoted := false, Referenced := false, Stacked := true },
       { Name := 3, Value := 3, LIR := false, Resident := true,
         Demoted := false, Referenced := false, Stacked := true }]
    ring := [3, 4]
    hot := some 3
    cold := some 4
    test := none
    lru := some 4
    capacity := 2
    coldTarget := 1
    hotTarget := 1
    coldCount := 1
    hotCount := 1
    testCount := 0
    demotions := 0 }

/-! ## Helper lemmas: evaluation checkpoints -/

/-- Evaluation checkpoint: `loadOnGhost` computes to `loadOnGhostValue`. -/
theorem loadOnGhost_eval : loadOnGhost = loadOnGhostValue := by
  decide

/-- Evaluation checkpoint: `corruptedState` computes to `corruptedStateValue`. -/
theorem corruptedState_eval : corruptedState = corruptedStateValue := by
  have h : corruptedState = (loadOnGhost.Set 2 2).Set 3 3 := by
    simp only [corruptedState, loadOnGhost, ghostState, run, List.foldl, applyOp]
  rw [h, loadOnGhost_eval]
  decide

/-- Bounded validation of the demotion accounting: along every prefix of
the capacity-4 sequence `demoTrace` the `demotions` counter equals the
number of ring-linked pages whose `Demoted` flag is set, and the prefix
ending at the ghost hit `Set(4,44)` has two live demotions (keys 1 and 2),
so the equality is exercised at nonzero counter values through the
demote-and-clear sites. -/
theorem demoTrace_demotions_eq :
    ((List.range (demoTrace.length + 1)).all (fun k =>
      let s := run (mkCache 4) (demoTrace.take k)
      s.demotions == countDemoted s)) = true
    ∧ (run (mkCache 4) (demoTrace.take 6)).demotions = 2 := by
  constructor
  · decide
  · decide

/-! ## Helper lemmas: counter and target footprints -/

theorem tdiv_eq_ediv_of_nonneg (a b : Int) (ha : 0 ≤ a) (hb : 0 ≤ b) :
    a.tdiv b = a / b := by
  obtain ⟨m, rfl⟩ := Int.eq_ofNat_of_zero_le ha
  obtain ⟨n, rfl⟩ := Int.eq_ofNat_of_zero_le hb
  rfl

theorem one_le_tdiv_two (c : Int) (h : 2 ≤ c) : 1 ≤ c.tdiv 2 := by
  rw [tdiv_eq_ediv_of_nonneg c 2 (by omega) (by omega)]
  omega

@[simp] theorem modifyPage_capacity (s : Cache) (i : Nat) (f : Page → Page) :
    (modifyPage s i f).capacity = s.capacity := rfl
@[simp] theorem modifyPage_hotCount (s : Cache) (i : Nat) (f : Page → Page) :
    (modifyPage s i f).hotCount = s.hotCount := rfl
@[simp] theorem modifyPage_coldCount (s : Cache) (i : Nat) (f : Page → Page) :
    (modifyPage s i f).coldCount = s.coldCount := rfl
@[simp] theorem modifyPage_testCount (s : Cache) (i : Nat) (f : Page → Page) :
    (modifyPage s i f).testCount = s.testCount := rfl
@[simp] theorem modifyPage_coldTarget (s : Cache) (i : Nat) (f : Page → Page) :
    (modifyPage s i f).coldTarget = s.coldTarget := rfl
@[simp] theorem modifyPage_hotTarget (s : Cache) (i : Nat) (f : Page → Page) :
    (modifyPage s i f).hotTarget = s.hotTarget := rfl

@[simp] theorem moveToLRU_capacity (s : Cache) (i : Nat) :
    (s.moveToLRU i).capacity = s.capacity := by
  unfold Cache.moveToLRU; split <;> rfl
@[simp] theorem moveToLRU_hotCount (s : Cache) (i : Nat) :
    (s.moveToLRU i).hotCount = s.hotCount := by
  unfold Cache.moveToLRU; split <;> rfl
@[simp] theorem moveToLRU_coldCount (s : Cache) (i : Nat) :
    (s.moveToLRU i).coldCount = s.coldCount := by
  unfold Cache.moveToLRU; split <;> rfl
@[simp] theorem moveToLRU_testCount (s : Cache) (i : Nat) :
    (s.moveToLRU i).testCount = s.testCount := by
  unfold Cache.moveToLRU; split <;> rfl
@[simp] theorem moveToLRU_coldTarget (s : Cache) (i : Nat) :
    (s.moveToLRU i).coldTarget = s.coldTarget := by
  unfold Cache.moveToLRU; split <;> rfl
@[simp] theorem moveToLRU_hotTarget (s : Cache) (i : Nat) :
    (s.moveToLRU i).hotTarget = s.hotTarget := by
  unfold Cache.moveToLRU; split <;> rfl

@[simp] theorem addToClock_capacity (s : Cache) (i : Nat) :
    (s.addToClock i).capacity = s.capacity := by
  unfold Cache.addToClock; split <;> rfl
@[simp] theorem addToClock_hotCount (s : Cache) (i : Nat) :
    (s.addToClock i).hotCount = s.hotCount := by
  unfold Cache.addToClock; split <;> rfl
@[simp] theorem addToClock_coldCount (s : Cache) (i : Nat) :
    (s.addToClock i).coldCount = s.coldCount := by
  unfold Cache.addToClock; split <;> rfl
@[simp] theorem addToClock_testCount (s : Cache) (i : Nat) :
    (s.addToClock i).testCount = s.testCount := by
  unfold Cache.addToClock; split <;> rfl
@[simp] theorem addToClock_coldTarget (s : Cache) (i : Nat) :
    (s.addToClock i).coldTarget = s.coldTarget := by
  unfold Cache.addToClock; split <;> rfl
@[simp] theorem addToClock_hotTarget (s : Cache) (i : Nat) :
    (s.addToClock i).hotTarget = s.hotTarget := by
  unfold Cache.addToClock; split <;> rfl

@[simp] theorem handleHotLIR_capacity (s : Cache) (i : Nat) :
    (s.handleHotLIR i).capacity = s.capacity := rfl
@[simp] theorem handleHotLIR_hotCount (s : Cache) (i : Nat) :
    (s.handleHotLIR i).hotCount = s.hotCount := rfl
@[simp] theorem handleHotLIR_coldCount (s : Cache) (i : Nat) :
    (s.handleHotLIR i).coldCount = s.coldCount := rfl
@[simp] theorem handleHotLIR_testCount (s : Cache) (i : Nat) :
    (s.handleHotLIR i).testCount = s.testCount := rfl
@[simp] theorem handleHotLIR_coldTarget (s : Cache) (i : Nat) :
    (s.handleHotLIR i).coldTarget = s.coldTarget := rfl
@[simp] theorem handleHotLIR_hotTarget (s : Cache) (i : Nat) :
    (s.handleHotLIR i).hotTarget = s.hotTarget := rfl

@[simp] theorem sweepTest_capacity (s : Cache) (f : Nat) :
    (s.sweepTest f).capacity = s.capacity := by
  unfold Cache.sweepTest; split <;> rfl
@[simp] theorem sweepTest_hotCount (s : Cache) (f : Nat) :
    (s.sweepTest f).hotCount = s.hotCount := by
  unfold Cache.sweepTest; split <;> rfl
@[simp] theorem sweepTest_coldCount (s : Cache) (f : Nat) :
    (s.sweepTest f).coldCount = s.coldCount := by
  unfold Cache.sweepTest; split <;> rfl
@[simp] theorem sweepTest_testCount (s : Cache) (f : Nat) :
    (s.sweepTest f).testCount = s.testCount := by
  unfold Cache.sweepTest; split <;> rfl
@[simp] theorem sweepTest_coldTarget (s : Cache) (f : Nat) :
    (s.sweepTest f).coldTarget = s.coldTarget := by
  unfold Cache.sweepTest; split <;> rfl
@[simp] theorem sweepTest_hotTarget (s : Cache) (f : Nat) :
    (s.sweepTest f).hotTarget = s.hotTarget := by
  unfold Cache.sweepTest; split <;> rfl

@[simp] theorem removeTest_capacity (s : Cache) (f : Nat) (i : Nat) :
    (s.removeTest f i).capacity = s.capacity := by
  unfold Cache.removeTest; split <;> simp
@[simp] theorem removeTest_hotCount (s : Cache) (f : Nat) (i : Nat) :
    (s.removeTest f i).hotCount = s.hotCount := by
  unfold Cache.removeTest; split <;> simp
@[simp] theorem removeTest_coldCount (s : Cache) (f : Nat) (i : Nat) :
    (s.removeTest f i).coldCount = s.coldCount := by
  unfold Cache.removeTest; split <;> simp
@[simp] theorem removeTest_testCount (s : Cache) (f : Nat) (i : Nat) :
    (s.removeTest f i).testCount = s.testCount - 1 := by
  unfold Cache.removeTest; split <;> simp
@[simp] theorem removeTest_coldTarget (s : Cache) (f : Nat) (i : Nat) :
    (s.removeTest f i).coldTarget = s.coldTarget := by
  unfold Cache.removeTest; split <;> simp
@[simp] theorem removeTest_hotTarget (s : Cache) (f : Nat) (i : Nat) :
    (s.removeTest f i).hotTarget = s.hotTarget := by
  unfold Cache.removeTest; split <;> simp

@[simp] theorem adjustColdTarget_capacity (s : Cache) (d : Int) :
    (s.adjustColdTarget d).capacity = s.capacity := rfl
@[simp] theorem adjustColdTarget_hotCount (s : Cache) (d : Int) :
    (s.adjustColdTarget d).hotCount = s.hotCount := rfl
@[simp] theorem adjustColdTarget_coldCount (s : Cache) (d : Int) :
    (s.adjustColdTarget d).coldCount = s.coldCount := rfl
@[simp] theorem adjustColdTarget_testCount (s : Cache) (d : Int) :
    (s.adjustColdTarget d).testCount = s.testCount := rfl

theorem adjustColdTarget_targetInv (s : Cache) (d : Int) (h : 2 ≤ s.capacity) :
    TargetInv (s.adjustColdTarget d) := by
  refine ⟨h, ?_, ?_, ?_⟩
  · show (1 : Int) ≤ min (max (s.coldTarget + d) 1) (s.capacity.tdiv 2)
    have := one_le_tdiv_two s.capacity h
    omega
  · show min (max (s.coldTarget + d) 1) (s.capacity.tdiv 2) ≤ s.capacity.tdiv 2
    omega
  · rfl

@[simp] theorem increaseColdTarget_capacity (s : Cache) :
    s.increaseColdTarget.capacity = s.capacity := rfl
@[simp] theorem increaseColdTarget_hotCount (s : Cache) :
    s.increaseColdTarget.hotCount = s.hotCount := rfl
@[simp] theorem increaseColdTarget_coldCount (s : Cache) :
    s.increaseColdTarget.coldCount = s.coldCount := rfl
@[simp] theorem increaseColdTarget_testCount (s : Cache) :
    s.increaseColdTarget.testCount = s.testCount := rfl
@[simp] theorem decreaseColdTarget_capacity (s : Cache) :
    s.decreaseColdTarget.capacity = s.capacity := rfl
@[simp] theorem decreaseColdTarget_hotCount (s : Cache) :
    s.decreaseColdTarget.hotCount = s.hotCount := rfl
@[simp] theorem decreaseColdTarget_coldCount (s : Cache) :
    s.decreaseColdTarget.coldCount = s.coldCount := rfl
@[simp] theorem decreaseColdTarget_testCount (s : Cache) :
    s.decreaseColdTarget.testCount = s.testCount := rfl

theorem increaseColdTarget_targetInv (s : Cache) (h : 2 ≤ s.capacity) :
    TargetInv s.increaseColdTarget :=
  adjustColdTarget_targetInv s _ h

theorem decreaseColdTarget_targetInv (s : Cache) (h : 2 ≤ s.capacity) :
    TargetInv s.decreaseColdTarget :=
  adjustColdTarget_targetInv s _ h


@[simp] theorem handleHotHIR_capacity (s : Cache) (f : Nat) (i n : Nat) :
    (s.handleHotHIR f i n).capacity = s.capacity := by
  simp only [Cache.handleHotHIR]
  split_ifs <;> simp
@[simp] theorem handleHotHIR_hotCount (s : Cache) (f : Nat) (i n : Nat) :
    (s.handleHotHIR f i n).hotCount = s.hotCount := by
  simp only [Cache.handleHotHIR]
  split_ifs <;> simp
@[simp] theorem handleHotHIR_coldCount (s : Cache) (f : Nat) (i n : Nat) :
    (s.handleHotHIR f i n).coldCount = s.coldCount := by
  simp only [Cache.handleHotHIR]
  split_ifs <;> simp
theorem handleHotHIR_testCount_le (s : Cache) (f : Nat) (i n : Nat) :
    (s.handleHotHIR f i n).testCount ≤ s.testCount := by
  simp only [Cache.handleHotHIR]
  split_ifs <;> simp <;> omega

theorem sweepHotLoop_scalars (f : Nat) (s : Cache) (p : Nat) :
    (sweepHotLoop f s p).1.capacity = s.capacity
    ∧ (sweepHotLoop f s p).1.hotCount = s.hotCount
    ∧ (sweepHotLoop f s p).1.coldCount = s.coldCount
    ∧ (sweepHotLoop f s p).1.testCount ≤ s.testCount := by
  induction f generalizing s p with
  | zero => exact ⟨rfl, rfl, rfl, le_refl _⟩
  | succ f ih =>
    simp only [sweepHotLoop]
    split
    · split
      · obtain ⟨h1, h2, h3, h4⟩ := ih (s.handleHotLIR p) (ringNext s.ring p)
        exact ⟨by simp [h1], by simp [h2], by simp [h3], by simpa using h4⟩
      · obtain ⟨h1, h2, h3, h4⟩ :=
          ih (s.handleHotHIR f p (ringNext s.ring p)) (ringNext s.ring p)
        refine ⟨by simp [h1], by simp [h2], by simp [h3], ?_⟩
        exact le_trans h4 (handleHotHIR_testCount_le s f p (ringNext s.ring p))
    · exact ⟨rfl, rfl, rfl, le_refl _⟩

@[simp] theorem sweepHot_capacity (s : Cache) (f : Nat) :
    (s.sweepHot f).capacity = s.capacity := by
  unfold Cache.sweepHot
  split
  · rfl
  · exact (sweepHotLoop_scalars f s (s.hot.getD 0)).1
@[simp] theorem sweepHot_hotCount (s : Cache) (f : Nat) :
    (s.sweepHot f).hotCount = s.hotCount := by
  unfold Cache.sweepHot
  split
  · rfl
  · exact (sweepHotLoop_scalars f s (s.hot.getD 0)).2.1
@[simp] theorem sweepHot_coldCount (s : Cache) (f : Nat) :
    (s.sweepHot f).coldCount = s.coldCount := by
  unfold Cache.sweepHot
  split
  · rfl
  · exact (sweepHotLoop_scalars f s (s.hot.getD 0)).2.2.1
theorem sweepHot_testCount_le (s : Cache) (f : Nat) :
    (s.sweepHot f).testCount ≤ s.testCount := by
  unfold Cache.sweepHot
  split
  · exact le_refl _
  · exact (sweepHotLoop_scalars f s (s.hot.getD 0)).2.2.2

@[simp] theorem demoteHot_capacity (s : Cache) (f : Nat) :
    (s.demoteHot f).capacity = s.capacity := by
  simp [Cache.demoteHot]
theorem demoteHot_hcSum (s : Cache) (f : Nat) :
    hcSum (s.demoteHot f) = hcSum s := by
  simp only [Cache.demoteHot, hcSum]
  simp <;> omega
theorem demoteHot_testCount_le (s : Cache) (f : Nat) :
    (s.demoteHot f).testCount ≤ s.testCount := by
  simp only [Cache.demoteHot]
  exact le_trans (sweepHot_testCount_le _ f) (by simp)

@[simp] theorem promoteColdLoop_capacity (f : Nat) (s : Cache) :
    (promoteColdLoop f s).capacity = s.capacity := by
  induction f generalizing s with
  | zero => rfl
  | succ f ih =>
    simp only [promoteColdLoop]
    split
    · rw [ih, demoteHot_capacity]
    · rfl
theorem promoteColdLoop_hcSum (f : Nat) (s : Cache) :
    hcSum (promoteColdLoop f s) = hcSum s := by
  induction f generalizing s with
  | zero => rfl
  | succ f ih =>
    simp only [promoteColdLoop]
    split
    · rw [ih, demoteHot_hcSum]
    · rfl
theorem promoteColdLoop_testCount_le (f : Nat) (s : Cache) :
    (promoteColdLoop f s).testCount ≤ s.testCount := by
  induction f generalizing s with
  | zero => exact le_refl _
  | succ f ih =>
    simp only [promoteColdLoop]
    split
    · exact le_trans (ih _) (demoteHot_testCount_le s f)
    · exact le_refl _

@[simp] theorem promoteCold_capacity (s : Cache) (f : Nat) (i : Nat) :
    (s.promoteCold f i).capacity = s.capacity := by
  simp [Cache.promoteCold]
theorem promoteCold_hcSum (s : Cache) (f : Nat) (i : Nat) :
    hcSum (s.promoteCold f i) = hcSum s := by
  simp only [Cache.promoteCold]
  rw [promoteColdLoop_hcSum]
  simp [hcSum] <;> omega
theorem promoteCold_testCount_le (s : Cache) (f : Nat) (i : Nat) :
    (s.promoteCold f i).testCount ≤ s.testCount := by
  simp only [Cache.promoteCold]
  exact le_trans (promoteColdLoop_testCount_le f _) (by simp)

theorem sweepTest_metaSum (s : Cache) (f : Nat) :
    metaSum (s.sweepTest f) = metaSum s := by
  simp [metaSum]

@[simp] theorem handleReferencedCold_capacity (s : Cache) (f : Nat) (i : Nat) :
    (s.handleReferencedCold f i).capacity = s.capacity := by
  simp only [Cache.handleReferencedCold]
  split_ifs <;> simp
theorem handleReferencedCold_hcSum (s : Cache) (f : Nat) (i : Nat) :
    hcSum (s.handleReferencedCold f i) = hcSum s := by
  simp only [Cache.handleReferencedCold]
  split_ifs <;> (try rw [promoteCold_hcSum]) <;> simp [hcSum]
theorem handleReferencedCold_testCount_le (s : Cache) (f : Nat) (i : Nat) :
    (s.handleReferencedCold f i).testCount ≤ s.testCount := by
  simp only [Cache.handleReferencedCold]
  split_ifs <;> (try exact le_trans (promoteCold_testCount_le _ f i) (by simp)) <;> simp

theorem sweepColdLoop_scalars (f : Nat) (s : Cache) (p : Nat) :
    (sweepColdLoop f s p).1.capacity = s.capacity
    ∧ hcSum (sweepColdLoop f s p).1 = hcSum s
    ∧ (sweepColdLoop f s p).1.testCount ≤ s.testCount := by
  induction f generalizing s p with
  | zero => exact ⟨rfl, rfl, le_refl _⟩
  | succ f ih =>
    simp only [sweepColdLoop]
    split
    · split
      · obtain ⟨h1, h2, h3⟩ := ih s (ringNext s.ring p)
        exact ⟨h1, h2, h3⟩
      · obtain ⟨h1, h2, h3⟩ := ih (s.handleReferencedCold f p) (ringNext s.ring p)
        refine ⟨by rw [h1, handleReferencedCold_capacity], ?_, ?_⟩
        · rw [h2, handleReferencedCold_hcSum]
        · exact le_trans h3 (handleReferencedCold_testCount_le s f p)
    · exact ⟨rfl, rfl, le_refl _⟩

@[simp] theorem sweepCold_capacity (s : Cache) (f : Nat) :
    (s.sweepCold f).capacity = s.capacity := by
  unfold Cache.sweepCold
  split
  · rfl
  · exact (sweepColdLoop_scalars f s (s.cold.getD 0)).1
theorem sweepCold_hcSum (s : Cache) (f : Nat) :
    hcSum (s.sweepCold f) = hcSum s := by
  unfold Cache.sweepCold
  split
  · rfl
  · have h := (sweepColdLoop_scalars f s (s.cold.getD 0)).2.1
    simpa [hcSum] using h
theorem sweepCold_testCount_le (s : Cache) (f : Nat) :
    (s.sweepCold f).testCount ≤ s.testCount := by
  unfold Cache.sweepCold
  split
  · exact le_refl _
  · exact (sweepColdLoop_scalars f s (s.cold.getD 0)).2.2
theorem sweepCold_metaSum_le (s : Cache) (f : Nat) :
    metaSum (s.sweepCold f) ≤ metaSum s := by
  have h1 := sweepCold_hcSum s f
  have h2 := sweepCold_testCount_le s f
  simp only [metaSum, hcSum] at *
  omega
theorem sweepHot_metaSum_le (s : Cache) (f : Nat) :
    metaSum (s.sweepHot f) ≤ metaSum s := by
  have h2 := sweepHot_testCount_le s f
  simp only [metaSum]
  simp
  omega
theorem promoteCold_metaSum_le (s : Cache) (f : Nat) (i : Nat) :
    metaSum (s.promoteCold f i) ≤ metaSum s := by
  have h1 := promoteCold_hcSum s f i
  have h2 := promoteCold_testCount_le s f i
  simp only [metaSum, hcSum] at *
  omega

@[simp] theorem evictCold_capacity (s : Cache) (f : Nat) :
    (s.evictCold f).capacity = s.capacity := by
  simp only [Cache.evictCold]
  split_ifs <;> simp
@[simp] theorem evictCold_hotCount (s : Cache) (f : Nat) :
    (s.evictCold f).hotCount = s.hotCount := by
  simp only [Cache.evictCold]
  split_ifs <;> simp
@[simp] theorem evictCold_coldCount (s : Cache) (f : Nat) :
    (s.evictCold f).coldCount = s.coldCount - 1 := by
  simp only [Cache.evictCold]
  split_ifs <;> simp
theorem evictCold_testCount_le (s : Cache) (f : Nat) :
    (s.evictCold f).testCount ≤ s.testCount + 1 := by
  simp only [Cache.evictCold]
  split_ifs <;> simp <;> omega
theorem evictCold_hcSum (s : Cache) (f : Nat) :
    hcSum (s.evictCold f) = hcSum s - 1 := by
  simp only [hcSum, evictCold_hotCount, evictCold_coldCount]
  omega
theorem evictCold_metaSum_le (s : Cache) (f : Nat) :
    metaSum (s.evictCold f) ≤ metaSum s := by
  have h := evictCold_testCount_le s f
  simp only [metaSum, evictCold_hotCount, evictCold_coldCount] at *
  omega

@[simp] theorem pruneTestLoop_capacity (f : Nat) (s : Cache) :
    (pruneTestLoop f s).capacity = s.capacity := by
  induction f generalizing s with
  | zero => rfl
  | succ f ih =>
    simp only [pruneTestLoop]
    split
    · rw [ih]; simp
    · rfl
theorem pruneTestLoop_hcSum (f : Nat) (s : Cache) :
    hcSum (pruneTestLoop f s) = hcSum s := by
  induction f generalizing s with
  | zero => rfl
  | succ f ih =>
    simp only [pruneTestLoop]
    split
    · rw [ih]; simp [hcSum]
    · rfl
theorem pruneTestLoop_metaSum (f : Nat) (s : Cache) :
    metaSum (pruneTestLoop f s) ≤ max (2 * s.capacity) (metaSum s - f) := by
  induction f generalizing s with
  | zero => simp only [pruneTestLoop, metaSum]; omega
  | succ f ih =>
    simp only [pruneTestLoop]
    split
    · have h := ih (s.removeTest f (s.test.getD 0))
      simp only [metaSum, removeTest_capacity, removeTest_hotCount,
        removeTest_coldCount, removeTest_testCount] at h ⊢
      omega
    · rename_i h
      simp only [metaSum]
      omega

theorem sweepHot_hcSum (s : Cache) (f : Nat) :
    hcSum (s.sweepHot f) = hcSum s := by
  simp [hcSum]

theorem sweepCold_then_prune_metaSum (f : Nat) (s : Cache) :
    metaSum (pruneTestLoop f (s.sweepCold f)) ≤ max (2 * s.capacity) (metaSum s - f) := by
  have h1 := sweepCold_metaSum_le s f
  have h2 := pruneTestLoop_metaSum f (s.sweepCold f)
  have h3 := sweepCold_capacity s f
  omega

@[simp] theorem addNew_capacity (s : Cache) (f : Nat) (k v : Int) :
    (s.addNew f k v).capacity = s.capacity := by
  simp only [Cache.addNew, Cache.pruneTest]
  split_ifs <;> simp

theorem addNew_hcSum (s : Cache) (f : Nat) (k v : Int) :
    hcSum (s.addNew f k v) = hcSum s + 1 := by
  simp only [Cache.addNew, Cache.pruneTest]
  rw [pruneTestLoop_hcSum, sweepCold_hcSum]
  split_ifs <;> simp [hcSum] <;> omega

theorem addNew_metaSum (s : Cache) (f : Nat) (k v : Int) :
    metaSum (s.addNew f k v) ≤ max (2 * s.capacity) (metaSum s + 1 - f) := by
  simp only [Cache.addNew, Cache.pruneTest]
  refine le_trans (sweepCold_then_prune_metaSum f _) ?_
  split_ifs <;> simp [metaSum] <;> omega

@[simp] theorem promoteTest_capacity (s : Cache) (f i : Nat) (v : Int) :
    (s.promoteTest f i v).capacity = s.capacity := by
  simp only [Cache.promoteTest]
  split_ifs <;> simp

theorem promoteTest_hcSum (s : Cache) (f i : Nat) (v : Int) :
    hcSum (s.promoteTest f i v) = hcSum s := by
  simp only [Cache.promoteTest]
  rw [sweepCold_hcSum, promoteCold_hcSum]
  split_ifs <;> simp [hcSum] <;> omega

theorem promoteTest_metaSum_le (s : Cache) (f i : Nat) (v : Int) :
    metaSum (s.promoteTest f i v) ≤ metaSum s := by
  simp only [Cache.promoteTest]
  refine le_trans (sweepCold_metaSum_le _ f) ?_
  refine le_trans (promoteCold_metaSum_le _ f i) ?_
  have h := evictCold_testCount_le s.increaseColdTarget f
  simp only [increaseColdTarget_testCount] at h
  split_ifs <;> simp only [metaSum, sweepTest_hotCount, sweepTest_coldCount,
    sweepTest_testCount] <;> simp <;> omega

@[simp] theorem handleMiss_capacity (s : Cache) (f : Nat) (k v : Int) (m : Bool) :
    (s.handleMiss f k v m).capacity = s.capacity := by
  simp only [Cache.handleMiss]
  split <;> simp [apply_ite]

theorem handleMiss_hcSum (s : Cache) (f : Nat) (k v : Int) (m : Bool) :
    hcSum (s.handleMiss f k v m) = hcSum s
    ∨ (hcSum (s.handleMiss f k v m) = hcSum s + 1 ∧ hcSum s ≠ s.capacity) := by
  simp only [Cache.handleMiss]
  split
  · left
    rw [promoteTest_hcSum, sweepCold_hcSum, sweepHot_hcSum]
  all_goals (
    rw [addNew_hcSum]
    split_ifs with h
    · left
      rw [evictCold_hcSum, sweepCold_hcSum, sweepHot_hcSum]
      omega
    · right
      simp only [Cache.atCapacity] at h
      rw [sweepCold_hcSum, sweepHot_hcSum]
      refine ⟨rfl, ?_⟩
      have hs := sweepCold_hcSum (s.sweepHot f) f
      simp only [hcSum] at hs ⊢
      simp only [sweepHot_hotCount, sweepHot_coldCount] at hs
      simp at h
      omega)

theorem handleMiss_metaSum (s : Cache) (f : Nat) (k v : Int) (m : Bool)
    (hf : 1 ≤ f) (h : metaSum s ≤ 2 * s.capacity) :
    (s.handleMiss f k v m).hotCount + (s.handleMiss f k v m).coldCount
      + (s.handleMiss f k v m).testCount ≤ 2 * s.capacity := by
  have goal : metaSum (s.handleMiss f k v m) ≤ 2 * s.capacity := by
    simp only [Cache.handleMiss]
    split
    · refine le_trans (promoteTest_metaSum_le _ f _ v) ?_
      refine le_trans (sweepCold_metaSum_le _ f) ?_
      exact le_trans (sweepHot_metaSum_le s f) h
    all_goals (
      refine le_trans (addNew_metaSum _ f k v) ?_
      have hX1 := sweepHot_metaSum_le s f
      have hX2 := sweepCold_metaSum_le (s.sweepHot f) f
      split_ifs with hcap
      · have hE := evictCold_metaSum_le (Cache.sweepCold (s.sweepHot f) f) f
        simp only [evictCold_capacity, sweepCold_capacity, sweepHot_capacity]
        omega
      · simp only [sweepCold_capacity, sweepHot_capacity]
        omega)
  simpa [metaSum] using goal

theorem mkCache_targetInv (c : Int) (hc : 2 ≤ c) : TargetInv (mkCache c) := by
  have htd := one_le_tdiv_two c hc
  refine ⟨hc, ?_, ?_, rfl⟩ <;> simp [mkCache, initialColdTarget] <;> omega

theorem modifyPage_targetInv (s : Cache) (i : Nat) (g : Page → Page)
    (h : TargetInv s) : TargetInv (modifyPage s i g) := by
  obtain ⟨h1, h2, h3, h4⟩ := h
  refine ⟨?_, ?_, ?_, ?_⟩ <;> simp_all

theorem moveToLRU_targetInv (s : Cache) (i : Nat) (h : TargetInv s) :
    TargetInv (s.moveToLRU i) := by
  obtain ⟨h1, h2, h3, h4⟩ := h
  refine ⟨?_, ?_, ?_, ?_⟩ <;> simp_all

theorem addToClock_targetInv (s : Cache) (i : Nat) (h : TargetInv s) :
    TargetInv (s.addToClock i) := by
  obtain ⟨h1, h2, h3, h4⟩ := h
  refine ⟨?_, ?_, ?_, ?_⟩ <;> simp_all

theorem handleHotLIR_targetInv (s : Cache) (i : Nat) (h : TargetInv s) :
    TargetInv (s.handleHotLIR i) := by
  obtain ⟨h1, h2, h3, h4⟩ := h
  refine ⟨?_, ?_, ?_, ?_⟩ <;> simp_all

theorem sweepTest_targetInv (s : Cache) (f : Nat) (h : TargetInv s) :
    TargetInv (s.sweepTest f) := by
  obtain ⟨h1, h2, h3, h4⟩ := h
  refine ⟨?_, ?_, ?_, ?_⟩ <;> simp_all

theorem removeTest_targetInv (s : Cache) (f i : Nat) (h : TargetInv s) :
    TargetInv (s.removeTest f i) := by
  obtain ⟨h1, h2, h3, h4⟩ := h
  refine ⟨?_, ?_, ?_, ?_⟩ <;> simp_all

theorem handleHotHIR_targetInv (s : Cache) (f : Nat) (i n : Nat) (h : TargetInv s) :
    TargetInv (s.handleHotHIR f i n) := by
  obtain ⟨h1, h2, h3, h4⟩ := h
  have htd := one_le_tdiv_two s.capacity h1
  simp only [Cache.handleHotHIR, Cache.decreaseColdTarget, Cache.adjustColdTarget]
  split_ifs <;> refine ⟨?_, ?_, ?_, ?_⟩ <;> simp_all <;> omega

theorem sweepHotLoop_targetInv (f : Nat) (s : Cache) (p : Nat) (h : TargetInv s) :
    TargetInv (sweepHotLoop f s p).1 := by
  induction f generalizing s p with
  | zero => exact h
  | succ f ih =>
    simp only [sweepHotLoop]
    split
    · split
      · exact ih _ _ (handleHotLIR_targetInv s p h)
      · exact ih _ _ (handleHotHIR_targetInv s f p (ringNext s.ring p) h)
    · exact h

theorem sweepHot_targetInv (s : Cache) (f : Nat) (h : TargetInv s) :
    TargetInv (s.sweepHot f) := by
  unfold Cache.sweepHot
  split
  · exact h
  · have hl := sweepHotLoop_targetInv f s (s.hot.getD 0) h
    obtain ⟨h1, h2, h3, h4⟩ := hl
    refine ⟨?_, ?_, ?_, ?_⟩ <;> simp_all

theorem demoteHot_targetInv (s : Cache) (f : Nat) (h : TargetInv s) :
    TargetInv (s.demoteHot f) := by
  obtain ⟨h1, h2, h3, h4⟩ := h
  simp only [Cache.demoteHot]
  apply sweepHot_targetInv
  apply moveToLRU_targetInv
  refine ⟨?_, ?_, ?_, ?_⟩ <;> simp_all

theorem promoteColdLoop_targetInv (f : Nat) (s : Cache) (h : TargetInv s) :
    TargetInv (promoteColdLoop f s) := by
  induction f generalizing s with
  | zero => exact h
  | succ f ih =>
    simp only [promoteColdLoop]
    split
    · exact ih _ (demoteHot_targetInv s f h)
    · exact h

theorem promoteCold_targetInv (s : Cache) (f i : Nat) (h : TargetInv s) :
    TargetInv (s.promoteCold f i) := by
  obtain ⟨h1, h2, h3, h4⟩ := h
  simp only [Cache.promoteCold]
  apply promoteColdLoop_targetInv
  apply moveToLRU_targetInv
  refine ⟨?_, ?_, ?_, ?_⟩ <;> simp_all

theorem handleReferencedCold_targetInv (s : Cache) (f : Nat) (i : Nat) (h : TargetInv s) :
    TargetInv (s.handleReferencedCold f i) := by
  have h1 := h.1
  have htd := one_le_tdiv_two s.capacity h1
  simp only [Cache.handleReferencedCold]
  split_ifs with hd hs hs
  · apply promoteCold_targetInv
    obtain ⟨g1, g2, g3, g4⟩ := h
    simp only [Cache.decreaseColdTarget, Cache.adjustColdTarget]
    refine ⟨?_, ?_, ?_, ?_⟩ <;> simp_all <;> omega
  · apply moveToLRU_targetInv
    apply modifyPage_targetInv
    obtain ⟨g1, g2, g3, g4⟩ := h
    simp only [Cache.decreaseColdTarget, Cache.adjustColdTarget]
    refine ⟨?_, ?_, ?_, ?_⟩ <;> simp_all <;> omega
  · exact promoteCold_targetInv _ _ _ (modifyPage_targetInv _ _ _ h)
  · apply moveToLRU_targetInv
    apply modifyPage_targetInv
    exact modifyPage_targetInv _ _ _ h

theorem sweepColdLoop_targetInv (f : Nat) (s : Cache) (p : Nat) (h : TargetInv s) :
    TargetInv (sweepColdLoop f s p).1 := by
  induction f generalizing s p with
  | zero => exact h
  | succ f ih =>
    simp only [sweepColdLoop]
    split
    · split
      · exact ih _ _ h
      · exact ih _ _ (handleReferencedCold_targetInv s f p h)
    · exact h

theorem sweepCold_targetInv (s : Cache) (f : Nat) (h : TargetInv s) :
    TargetInv (s.sweepCold f) := by
  unfold Cache.sweepCold
  split
  · exact h
  · have hl := sweepColdLoop_targetInv f s (s.cold.getD 0) h
    obtain ⟨h1, h2, h3, h4⟩ := hl
    refine ⟨?_, ?_, ?_, ?_⟩ <;> simp_all

theorem evictCold_targetInv (s : Cache) (f : Nat) (h : TargetInv s) :
    TargetInv (s.evictCold f) := by
  obtain ⟨h1, h2, h3, h4⟩ := h
  simp only [Cache.evictCold]
  split_ifs <;> refine ⟨?_, ?_, ?_, ?_⟩ <;> simp_all

theorem pruneTestLoop_targetInv (f : Nat) (s : Cache) (h : TargetInv s) :
    TargetInv (pruneTestLoop f s) := by
  induction f generalizing s with
  | zero => exact h
  | succ f ih =>
    simp only [pruneTestLoop]
    split
    · exact ih _ (removeTest_targetInv s f _ h)
    · exact h

theorem addNew_targetInv (s : Cache) (f : Nat) (k v : Int) (h : TargetInv s) :
    TargetInv (s.addNew f k v) := by
  simp only [Cache.addNew, Cache.pruneTest]
  apply pruneTestLoop_targetInv
  apply sweepCold_targetInv
  obtain ⟨h1, h2, h3, h4⟩ := h
  split_ifs <;> refine ⟨?_, ?_, ?_, ?_⟩ <;> simp_all

theorem promoteTest_targetInv (s : Cache) (f i : Nat) (v : Int) (h : TargetInv s) :
    TargetInv (s.promoteTest f i v) := by
  simp only [Cache.promoteTest]
  apply sweepCold_targetInv
  apply promoteCold_targetInv
  have hEv : TargetInv (s.increaseColdTarget.evictCold f) :=
    evictCold_targetInv _ f (increaseColdTarget_targetInv s h.1)
  obtain ⟨h1, h2, h3, h4⟩ := hEv
  split_ifs
  · apply sweepTest_targetInv
    refine ⟨?_, ?_, ?_, ?_⟩ <;> simp_all
  · refine ⟨?_, ?_, ?_, ?_⟩ <;> simp_all

theorem handleMiss_targetInv (s : Cache) (f : Nat) (k v : Int) (m : Bool)
    (h : TargetInv s) : TargetInv (s.handleMiss f k v m) := by
  simp only [Cache.handleMiss]
  have hsw : TargetInv ((s.sweepHot f).sweepCold f) :=
    sweepCold_targetInv _ f (sweepHot_targetInv s f h)
  split
  · exact promoteTest_targetInv _ f _ v hsw
  all_goals (
    apply addNew_targetInv
    split_ifs
    · exact evictCold_targetInv _ f hsw
    · exact hsw)

theorem one_le_defaultFuel (s : Cache) : 1 ≤ s.defaultFuel :=
  Nat.mul_pos (by omega) (by omega)

@[simp] theorem Get_capacity (s : Cache) (k : Int) :
    (s.Get k).1.capacity = s.capacity := by
  simp only [Cache.Get]
  split <;> (try split_ifs) <;> simp
@[simp] theorem Get_hotCount (s : Cache) (k : Int) :
    (s.Get k).1.hotCount = s.hotCount := by
  simp only [Cache.Get]
  split <;> (try split_ifs) <;> simp
@[simp] theorem Get_coldCount (s : Cache) (k : Int) :
    (s.Get k).1.coldCount = s.coldCount := by
  simp only [Cache.Get]
  split <;> (try split_ifs) <;> simp
@[simp] theorem Get_testCount (s : Cache) (k : Int) :
    (s.Get k).1.testCount = s.testCount := by
  simp only [Cache.Get]
  split <;> (try split_ifs) <;> simp
@[simp] theorem Get_coldTarget (s : Cache) (k : Int) :
    (s.Get k).1.coldTarget = s.coldTarget := by
  simp only [Cache.Get]
  split <;> (try split_ifs) <;> simp
@[simp] theorem Get_hotTarget (s : Cache) (k : Int) :
    (s.Get k).1.hotTarget = s.hotTarget := by
  simp only [Cache.Get]
  split <;> (try split_ifs) <;> simp

theorem applyOp_capacity (s : Cache) (op : Op) :
    (applyOp s op).capacity = s.capacity := by
  cases op with
  | get k => simp [applyOp]
  | set k v =>
    simp only [applyOp, Cache.Set]
    split <;> (try split_ifs) <;> simp
  | load k fe =>
    simp only [applyOp, Cache.Load]
    split
    · rename_i s' v heq
      have h2 := congrArg (fun p => p.1) heq
      simp only at h2
      rw [← h2]
      simp
    · rename_i s' heq
      have h2 := congrArg (fun p => p.1) heq
      simp only at h2
      split
      · rw [← h2]; simp
      · rw [← h2]; simp
  | len => rfl
  | keys => rfl

theorem applyOp_hcSum (s : Cache) (op : Op) :
    hcSum (applyOp s op) = hcSum s
    ∨ (hcSum (applyOp s op) = hcSum s + 1 ∧ hcSum s ≠ s.capacity) := by
  cases op with
  | get k => left; simp [applyOp, hcSum]
  | set k v =>
    simp only [applyOp, Cache.Set]
    split
    · split_ifs
      · left; simp [hcSum]
      · exact handleMiss_hcSum s _ k v true
    · exact handleMiss_hcSum s _ k v false
  | load k fe =>
    simp only [applyOp, Cache.Load]
    split
    · rename_i s' v heq
      have h2 := congrArg (fun p => p.1) heq
      simp only at h2
      rw [← h2]
      left
      simp [hcSum]
    · rename_i s' heq
      have h2 := congrArg (fun p => p.1) heq
      simp only at h2
      split
      · rw [← h2]; left; simp [hcSum]
      · rename_i value
        rw [← h2]
        dsimp only
        have hstep := handleMiss_hcSum (s.Get k).1 ((s.Get k).1.defaultFuel) k value false
        have e1 : hcSum (s.Get k).1 = hcSum s := by simp [hcSum]
        have e2 : (s.Get k).1.capacity = s.capacity := by simp
        rcases hstep with a | ⟨a, b⟩
        · left; omega
        · right; omega
  | len => left; rfl
  | keys => left; rfl

theorem applyOp_metaSum (s : Cache) (op : Op) (h : metaSum s ≤ 2 * s.capacity) :
    metaSum (applyOp s op) ≤ 2 * s.capacity := by
  cases op with
  | get k => simpa [applyOp, metaSum] using h
  | set k v =>
    simp only [applyOp, Cache.Set]
    split
    · split_ifs
      · simpa [metaSum] using h
      · simpa [metaSum] using
          handleMiss_metaSum s _ k v true (one_le_defaultFuel s) h
    · simpa [metaSum] using
        handleMiss_metaSum s _ k v false (one_le_defaultFuel s) h
  | load k fe =>
    simp only [applyOp, Cache.Load]
    split
    · rename_i s' v heq
      have h2 := congrArg (fun p => p.1) heq
      simp only at h2
      rw [← h2]
      simpa [metaSum] using h
    · rename_i s' heq
      have h2 := congrArg (fun p => p.1) heq
      simp only at h2
      split
      · rw [← h2]; simpa [metaSum] using h
      · rename_i value
        rw [← h2]
        dsimp only
        have hbase : metaSum (s.Get k).1 ≤ 2 * (s.Get k).1.capacity := by
          simpa [metaSum] using h
        have hstep := handleMiss_metaSum (s.Get k).1 ((s.Get k).1.defaultFuel)
          k value false (one_le_defaultFuel _) hbase
        have e2 : (s.Get k).1.capacity = s.capacity := by simp
        simp only [metaSum]
        omega
  | len => exact h
  | keys => exact h

theorem Get_targetInv (s : Cache) (k : Int) (h : TargetInv s) :
    TargetInv (s.Get k).1 := by
  obtain ⟨h1, h2, h3, h4⟩ := h
  refine ⟨?_, ?_, ?_, ?_⟩ <;> simp_all

theorem applyOp_targetInv (s : Cache) (op : Op) (h : TargetInv s) :
    TargetInv (applyOp s op) := by
  cases op with
  | get k => exact Get_targetInv s k h
  | set k v =>
    simp only [applyOp, Cache.Set]
    split
    · split_ifs
      · exact modifyPage_targetInv _ _ _ h
      · exact handleMiss_targetInv s _ k v true h
    · exact handleMiss_targetInv s _ k v false h
  | load k fe =>
    simp only [applyOp, Cache.Load]
    split
    · rename_i s' v heq
      have h2 := congrArg (fun p => p.1) heq
      simp only at h2
      rw [← h2]
      exact Get_targetInv s k h
    · rename_i s' heq
      have h2 := congrArg (fun p => p.1) heq
      simp only at h2
      split
      · rw [← h2]; exact Get_targetInv s k h
      · rw [← h2]
        exact handleMiss_targetInv _ _ k _ false (Get_targetInv s k h)
  | len => exact h
  | keys => exact h

theorem run_capacity (s : Cache) (ops : List Op) :
    (run s ops).capacity = s.capacity := by
  induction ops generalizing s with
  | nil => rfl
  | cons op ops ih =>
    show (run (applyOp s op) ops).capacity = s.capacity
    rw [ih, applyOp_capacity]

theorem run_hcSum_le (s : Cache) (ops : List Op) (h : hcSum s ≤ s.capacity) :
    hcSum (run s ops) ≤ s.capacity := by
  induction ops generalizing s with
  | nil => exact h
  | cons op ops ih =>
    show hcSum (run (applyOp s op) ops) ≤ s.capacity
    have hc := applyOp_capacity s op
    have hstep := applyOp_hcSum s op
    have := ih (applyOp s op) (by rcases hstep with h1 | ⟨h1, h2⟩ <;> omega)
    omega

theorem run_hcSum_eq (s : Cache) (ops : List Op) (h : hcSum s = s.capacity) :
    hcSum (run s ops) = s.capacity := by
  induction ops generalizing s with
  | nil => exact h
  | cons op ops ih =>
    show hcSum (run (applyOp s op) ops) = s.capacity
    have hc := applyOp_capacity s op
    have hstep := applyOp_hcSum s op
    have := ih (applyOp s op) (by rcases hstep with h1 | ⟨h1, h2⟩ <;> omega)
    omega

theorem run_metaSum (s : Cache) (ops : List Op) (h : metaSum s ≤ 2 * s.capacity) :
    metaSum (run s ops) ≤ 2 * s.capacity := by
  induction ops generalizing s with
  | nil => exact h
  | cons op ops ih =>
    show metaSum (run (applyOp s op) ops) ≤ 2 * s.capacity
    have hc := applyOp_capacity s op
    have := ih (applyOp s op) (by rw [hc]; exact applyOp_metaSum s op h)
    omega

theorem run_targetInv (s : Cache) (ops : List Op) (h : TargetInv s) :
    TargetInv (run s ops) := by
  induction ops generalizing s with
  | nil => exact h
  | cons op ops ih => exact ih (applyOp s op) (applyOp_targetInv s op h)

theorem New_ok (c : Int) (s₀ : Cache) (h : New c = .ok s₀) :
    2 ≤ c ∧ s₀ = mkCache c := by
  unfold New at h
  split at h
  · exact absurd h (by simp)
  · next hge =>
    refine ⟨?_, (Except.ok.inj h).symm⟩
    simp only [MinimumCapacity] at hge
    omega

/-- C4: confirmed.  For a cache built by `New` with capacity `c` (which
requires `c ≥ 2`), after any finite sequence of public operations: `Len()`
equals `hotCount + coldCount`, it never exceeds `c`, and once it has
reached `c` it equals exactly `c` after every subsequent sequence of
public operations (invariant I1). -/
theorem C4_len_capacity_invariant (c : Int) (s₀ : Cache) (h : New c = .ok s₀)
    (ops : List Op) :
    (run s₀ ops).Len = (run s₀ ops).hotCount + (run s₀ ops).coldCount
    ∧ (run s₀ ops).Len ≤ c
    ∧ ∀ more : List Op, (run s₀ ops).Len = c → (run s₀ (ops ++ more)).Len = c := by
  obtain ⟨hc, rfl⟩ := New_ok c s₀ h
  refine ⟨rfl, ?_, ?_⟩
  · have hb : hcSum (mkCache c) ≤ (mkCache c).capacity := by
      simp [hcSum, mkCache]
      omega
    have := run_hcSum_le (mkCache c) ops hb
    simpa [hcSum, Cache.Len] using this
  · intro more hlen
    have happ : run (mkCache c) (ops ++ more) = run (run (mkCache c) ops) more := by
      simp [run, List.foldl_append]
    rw [happ]
    have hpre : hcSum (run (mkCache c) ops) = (run (mkCache c) ops).capacity := by
      rw [run_capacity]
      simpa [hcSum, Cache.Len] using hlen
    have := run_hcSum_eq (run (mkCache c) ops) more hpre
    rw [run_capacity] at this
    simpa [hcSum, Cache.Len] using this

/-- Witness for C4 at capacity 2: one insertion keeps the length within
capacity, and after the cache is full a further distinct insertion keeps
the length exactly at capacity. -/
theorem C4_witness :
    (run (mkCache 2) [Op.set 1 1]).Len ≤ 2
    ∧ (run (mkCache 2) ([Op.set 1 1, Op.set 2 2] ++ [Op.set 3 3])).Len = 2 :=
  ⟨(C4_len_capacity_invariant 2 (mkCache 2) rfl [Op.set 1 1]).2.1,
   (C4_len_capacity_invariant 2 (mkCache 2) rfl [Op.set 1 1, Op.set 2 2]).2.2
     [Op.set 3 3] (by decide)⟩

/-- C5: confirmed.  For a cache built by `New` with capacity `c`, after
every finite sequence of public operations the tracked metadata satisfies
`hotCount + coldCount + testCount ≤ 2·c` (invariant I2). -/
theorem C5_metadata_bound (c : Int) (s₀ : Cache) (h : New c = .ok s₀)
    (ops : List Op) :
    (run s₀ ops).hotCount + (run s₀ ops).coldCount + (run s₀ ops).testCount
      ≤ 2 * c := by
  obtain ⟨hc, rfl⟩ := New_ok c s₀ h
  have hb : metaSum (mkCache c) ≤ 2 * (mkCache c).capacity := by
    simp [metaSum, mkCache]
    omega
  have := run_metaSum (mkCache c) ops hb
  simpa [metaSum] using this

/-- Witness for C5 at capacity 2 with three distinct insertions. -/
theorem C5_witness :
    (run (mkCache 2) [Op.set 1 1, Op.set 2 2, Op.set 3 3]).hotCount
      + (run (mkCache 2) [Op.set 1 1, Op.set 2 2, Op.set 3 3]).coldCount
      + (run (mkCache 2) [Op.set 1 1, Op.set 2 2, Op.set 3 3]).testCount
      ≤ 2 * 2 :=
  C5_metadata_bound 2 (mkCache 2) rfl [Op.set 1 1, Op.set 2 2, Op.set 3 3]

/-- C6: confirmed.  For a cache built by `New` with capacity `c ≥ 2`,
after construction and after every finite sequence of public operations:
`1 ≤ coldTarget ≤ c/2` and `hotTarget = c − coldTarget` (invariant I3);
and immediately after `New(c)`, `coldTarget = max(1, min(⌊c·0.01⌋, c/2))`.
The source computes `⌊c·0.01⌋` in 64-bit floating point; it is modelled in
exact real arithmetic, where for `c ≥ 2` it equals `c.tdiv 100` (see
`initialColdTarget`). -/
theorem C6_cold_target_invariant (c : Int) (s₀ : Cache) (h : New c = .ok s₀)
    (ops : List Op) :
    (1 ≤ (run s₀ ops).coldTarget
      ∧ (run s₀ ops).coldTarget ≤ c.tdiv 2
      ∧ (run s₀ ops).hotTarget = c - (run s₀ ops).coldTarget)
    ∧ s₀.coldTarget = max 1 (min (c.tdiv 100) (c.tdiv 2)) := by
  obtain ⟨hc, rfl⟩ := New_ok c s₀ h
  have hcap := run_capacity (mkCache c) ops
  obtain ⟨t1, t2, t3, t4⟩ := run_targetInv (mkCache c) ops (mkCache_targetInv c hc)
  constructor
  · have hc2 : (run (mkCache c) ops).capacity = c := hcap
    rw [hc2] at t3 t4
    exact ⟨t2, t3, t4⟩
  · have htd := one_le_tdiv_two c hc
    show initialColdTarget c = _
    unfold initialColdTarget
    omega

/-- Witness for C6 at capacity 2 after one insertion. -/
theorem C6_witness :
    (1 ≤ (run (mkCache 2) [Op.set 1 1]).coldTarget
      ∧ (run (mkCache 2) [Op.set 1 1]).coldTarget ≤ (2 : Int).tdiv 2
      ∧ (run (mkCache 2) [Op.set 1 1]).hotTarget
          = 2 - (run (mkCache 2) [Op.set 1 1]).coldTarget)
    ∧ (mkCache 2).coldTarget
        = max 1 (min ((2 : Int).tdiv 100) ((2 : Int).tdiv 2)) :=
  C6_cold_target_invariant 2 (mkCache 2) rfl [Op.set 1 1]

/-! ## Claim theorems: concrete scenarios -/

/-- C1: refuted by the code (code bug).  At the reachable state `ghostState`
the metadata of key 2 is a ghost (index entry `some 1`, page 1 nonresident)
and survives the initial hot and cold sweeps; yet `Load` on key 2 with a
successful fetch does not resurrect it: because `Load` passes the constant
`hadMetadata = false` to `handleMiss`, the ghost-hit branch is skipped, an
additional page record (id 3) is created and indexed for key 2, and the
ghost page 1 stays nonresident in the ring.  `Set` on the same state takes
the `promoteTest` path: no additional page record, page 1 resurrected. -/
theorem C1_load_ghost_not_promoted :
    idxLookup ghostStateSwept.index 2 = some 1
    ∧ (getPage ghostStateSwept 1).Resident = false
    ∧ loadOnGhost.pages.length = ghostState.pages.length + 1
    ∧ idxLookup loadOnGhost.index 2 = some 3
    ∧ (getPage loadOnGhost 1).Resident = false
    ∧ loadOnGhost.ring = [0, 1, 2, 3]
    ∧ setOnGhost.pages.length = ghostState.pages.length
    ∧ idxLookup setOnGhost.index 2 = some 1
    ∧ (getPage setOnGhost 1).Resident = true := by
  decide

/-- C2: refuted by the code (code bug, same root cause as C1).  In the
reachable state `corruptedState`, page 3 is linked in the ring, resident,
and named key 2, but the index has no entry for key 2 — invariant I4
("every Resident page is in the index") fails after a public operation. -/
theorem C2_resident_page_missing_from_index :
    corruptedState.ring = [3, 4]
    ∧ (getPage corruptedState 3).Resident = true
    ∧ (getPage corruptedState 3).Name = 2
    ∧ idxLookup corruptedState.index 2 = none := by
  rw [corruptedState_eval]
  decide

/-- C3: counterexample to the claimed scenario.  At capacity 2 the first
insertion Set(1,1) goes to the hot set (lowIRR rule of `addNew`), so
Set(3,3) evicts key 2 — not key 1 — to a ghost: after the first three Sets
key 1 is still resident and key 2 is the nonresident ghost.  Set(1,-1) is
therefore a resident hit, not a ghost hit, and coldTarget after the full
sequence equals its initial value (no increase; indeed coldTarget is
clamped to capacity/2 = 1). -/
theorem C3_counterexample :
    (getPage ghostState 0).Name = 1
    ∧ (getPage ghostState 0).Resident = true
    ∧ idxLookup ghostState.index 1 = some 0
    ∧ (getPage ghostState 1).Name = 2
    ∧ (getPage ghostState 1).Resident = false
    ∧ (ghostState.Set 1 (-1)).coldTarget = (mkCache 2).coldTarget := by
  decide

/-- C3 (amended): with capacity 2, after Set(1,1); Set(2,2); Set(3,3);
Set(1,-1): the Set(3,3) call evicts key 2 to a ghost (key 1, inserted hot,
stays resident), the Set(1,-1) call is a resident hit updating the value in
place (no new page record), the resident keys are exactly {1, 3}, and
coldTarget remains at its initial value 1, which is its maximum at
capacity 2 since coldTarget is clamped to capacity/2. -/
theorem C3_ghost_readmit_amended :
    residentKeys (ghostState.Set 1 (-1)) = [1, 3]
    ∧ (ghostState.Set 1 (-1)).pages.length = ghostState.pages.length
    ∧ (getPage (ghostState.Set 1 (-1)) 0).Value = -1
    ∧ (ghostState.Set 1 (-1)).coldTarget = 1
    ∧ (mkCache 2).coldTarget = 1 := by
  decide

/-- C7: refuted by the code (code bug, same root cause as C1).  In the
reachable state `corruptedState`, `Len()` is 2 but a full iteration of
`Keys()` yields only the single key 3 (the resident page for key 2 has no
index entry), so Keys does not yield exactly `Len()` keys. -/
theorem C7_keys_yield_fewer_than_len :
    corruptedState.Len = 2
    ∧ corruptedState.Keys = [3]
    ∧ corruptedState.Keys.length = 1 := by
  rw [corruptedState_eval]
  decide

/-- C8: confirmed.  With capacity 3, after Set(1,1); Set(2,2); Set(3,3);
Get(1); Get(2); Set(4,4) the resident keys are exactly {1, 2, 4}; key 3,
the unreferenced cold page, has been evicted (its metadata is gone from
the index entirely). -/
theorem C8_eviction_order :
    residentKeys evictionOrderState = [1, 2, 4]
    ∧ evictionOrderState.Len = 3
    ∧ idxLookup evictionOrderState.index 3 = none := by
  decide

/-- C9: confirmed.  `New` returns an error exactly when the capacity is
below 2, and the error wraps the sentinel `ErrInvalidCapacity` with the
message described by the spec (the source renders the bound in ASCII, as
"must be >=2"). -/
theorem C9_new_capacity_validation (capacity : Int) :
    ((∃ e, New capacity = .error e) ↔ capacity < 2)
    ∧ ∀ e, New capacity = .error e → e.wrapped = ErrInvalidCapacity
        ∧ e.message = "invalid capacity: must be >=2 but "
            ++ toString capacity ++ " was requested" := by
  constructor
  · constructor
    · rintro ⟨e, he⟩
      unfold New at he
      split at he
      · next h => exact h
      · exact absurd he (by simp)
    · intro h
      refine ⟨minCapacityError capacity, ?_⟩
      unfold New MinimumCapacity
      rw [if_pos h]
  · intro e he
    unfold New at he
    split at he
    · cases he
      exact ⟨rfl, rfl⟩
    · exact absurd he (by simp)

/-- Witness for C9 at the concrete capacities of the spec scenario:
New(-1) fails with the documented error; New(2) succeeds. -/
theorem C9_witness :
    ((-1 : Int) < 2 ∧ ∃ e, New (-1) = .error e)
    ∧ (minCapacityError (-1)).wrapped = ErrInvalidCapacity
    ∧ (minCapacityError (-1)).message = "invalid capacity: must be >=2 but "
        ++ toString (-1 : Int) ++ " was requested"
    ∧ ¬∃ e, New 2 = .error e :=
  ⟨⟨by decide, (C9_new_capacity_validation (-1)).1.mpr (by decide)⟩,
    ((C9_new_capacity_validation (-1)).2 (minCapacityError (-1)) rfl).1,
    ((C9_new_capacity_validation (-1)).2 (minCapacityError (-1)) rfl).2,
    fun h => absurd ((C9_new_capacity_validation 2).1.mp h) (by decide)⟩

end Clockpro
